import Mathlib

/-!
Verification of the TeamMakerV2 roster organizer (src/App.tsx).

The program is a single React component holding two state slices, a player
list and a team list, mutated by pure handler functions.  This file embeds
those handlers shallowly: each React setState call computes the next
collection as a pure function of the previous one, so every handler becomes
a Lean function from the application state to the application state.  The
random id generator makeId is modelled by passing the generated id as an
explicit argument, and the browser string primitives used by the handlers
(String.prototype.trim, localeCompare) are modelled by executable functions
over the character list of a string.
-/

namespace TeamMakerV2

/-- Player record as in src/App.tsx lines 12-17. -/
structure Player where
  id : String
  name : String
  color : String
  teamId : Option String
deriving DecidableEq

/-- Team record as in src/App.tsx lines 19-23. -/
structure Team where
  id : String
  name : String
  accent : String
deriving DecidableEq

/-- The fixed eight-color palette from src/App.tsx lines 25-34. -/
def palette : List String :=
  ["#ff7b7b", "#ffd36b", "#9ae66e", "#6fd1ff", "#caa0ff", "#ffa6c9", "#8de4ff", "#ffe066"]

/-- The JavaScript indexing expression palette[n % palette.length]; the index
is always in range, so the default value of getD is never used. -/
def paletteColor (n : Nat) : String := palette.getD (n % palette.length) ""

/-- The two seed teams from src/App.tsx lines 36-39. -/
def initialTeams : List Team :=
  [⟨"alpha", "Team Alpha", "#ffb347"⟩, ⟨"bravo", "Team Bravo", "#6dd5ed"⟩]

/-- The thirteen seed players from src/App.tsx lines 41-62: each gets an id
from makeId (a random UUID, modelled here by distinct concrete strings),
the listed name, the palette color at its index mod 8, and no team. -/
def seededPlayers : List Player :=
  [⟨"seed-a", "Astra", "#ff7b7b", none⟩,
   ⟨"seed-b", "Blitz", "#ffd36b", none⟩,
   ⟨"seed-c", "Cipher", "#9ae66e", none⟩,
   ⟨"seed-d", "Draco", "#6fd1ff", none⟩,
   ⟨"seed-e", "Echo", "#caa0ff", none⟩,
   ⟨"seed-f", "Flux", "#ffa6c9", none⟩,
   ⟨"seed-g", "Gemini", "#8de4ff", none⟩,
   ⟨"seed-h", "Halo", "#ffe066", none⟩,
   ⟨"seed-i", "Ion", "#ff7b7b", none⟩,
   ⟨"seed-j", "Jinx", "#ffd36b", none⟩,
   ⟨"seed-k", "Kairo", "#9ae66e", none⟩,
   ⟨"seed-l", "Luna", "#6fd1ff", none⟩,
   ⟨"seed-m", "Metro", "#caa0ff", none⟩]

/-- Whitespace test used to model String.prototype.trim. -/
def isJsSpace (c : Char) : Bool :=
  c == ' ' || c == '\t' || c == '\n' || c == '\r' || c == '\x0b' || c == '\x0c'

/-- Drop leading whitespace from a character list. -/
def dropWs : List Char → List Char
  | [] => []
  | c :: cs => if isJsSpace c then dropWs cs else c :: cs

/-- Characters of a string with leading and trailing whitespace removed. -/
def trimChars (cs : List Char) : List Char :=
  (dropWs (dropWs cs.reverse).reverse)

/-- Model of JavaScript String.prototype.trim. -/
def jsTrim (s : String) : String := ⟨trimChars s.data⟩

/-- The application state: the two domain state slices of the component
(src/App.tsx lines 83-104).  Transient UI state (form input text, hovered
zone, theme flag) carries no domain data and is not modelled. -/
structure AppState where
  players : List Player
  teams : List Team
deriving DecidableEq

/-- The state seeded on first load: thirteen players on the bench and the
two initial teams. -/
def seedState : AppState := ⟨seededPlayers, initialTeams⟩

/-- handleCreatePlayer (src/App.tsx lines 176-190): reject when the trimmed
input is empty, otherwise append one player with the generated id, the
trimmed name, the palette color at the current player count, and no team. -/
def handleCreatePlayer (s : AppState) (newId rawName : String) : AppState :=
  let trimmed := jsTrim rawName
  if trimmed = "" then s
  else { s with players := s.players ++
    [{ id := newId, name := trimmed, color := paletteColor s.players.length, teamId := none }] }

/-- handleCreateTeam (src/App.tsx lines 192-205): same pattern for teams,
accent from the palette at the current team count. -/
def handleCreateTeam (s : AppState) (newId rawName : String) : AppState :=
  let trimmed := jsTrim rawName
  if trimmed = "" then s
  else { s with teams := s.teams ++
    [{ id := newId, name := trimmed, accent := paletteColor s.teams.length }] }

/-- handleDrop (src/App.tsx lines 207-214): set teamId on the player whose
id matches, leaving every other player untouched. -/
def handleDrop (s : AppState) (playerId : String) (teamId : Option String) : AppState :=
  let f := fun (p : Player) => if p.id = playerId then { p with teamId := teamId } else p
  { s with players := s.players.map f }

/-- The onDrop closure built by makeZoneHandlers (src/App.tsx lines 254-260):
read the carried player id from the drag payload; an absent id reads as the
empty string, which is falsy, so the drop is a no-op. -/
def zoneOnDrop (s : AppState) (carried : String) (teamId : Option String) : AppState :=
  if carried = "" then s else handleDrop s carried teamId

/-- handleRemovePlayer (src/App.tsx lines 216-218). -/
def handleRemovePlayer (s : AppState) (playerId : String) : AppState :=
  { s with players := s.players.filter (fun p => p.id != playerId) }

/-- handleUpdatePlayerName (src/App.tsx lines 220-226): replace the name of
the matching player; no trimming happens here, the caller passes a trimmed
name. -/
def handleUpdatePlayerName (s : AppState) (playerId newName : String) : AppState :=
  let f := fun (p : Player) => if p.id = playerId then { p with name := newName } else p
  { s with players := s.players.map f }

/-- handleRemoveTeam (src/App.tsx lines 228-235): drop the matching team and,
in the same transition, null out the teamId of every player assigned to it. -/
def handleRemoveTeam (s : AppState) (teamId : String) : AppState :=
  let f := fun (p : Player) => if p.teamId = some teamId then { p with teamId := none } else p
  { players := s.players.map f, teams := s.teams.filter (fun t => t.id != teamId) }

/-- handleUpdateTeamName (src/App.tsx lines 237-243). -/
def handleUpdateTeamName (s : AppState) (teamId newName : String) : AppState :=
  let f := fun (t : Team) => if t.id = teamId then { t with name := newName } else t
  { s with teams := s.teams.map f }

/-- Nametag.handleSubmit (src/App.tsx lines 446-452): invoke the rename only
when the edited name trims to something non-empty, passing the trimmed name. -/
def nametagSubmit (s : AppState) (playerId editName : String) : AppState :=
  if jsTrim editName = "" then s
  else handleUpdatePlayerName s playerId (jsTrim editName)

/-- TeamColumn.handleSubmit (src/App.tsx lines 376-382): same guard for the
team rename. -/
def teamColumnSubmit (s : AppState) (teamId editName : String) : AppState :=
  if jsTrim editName = "" then s
  else handleUpdateTeamName s teamId (jsTrim editName)

/-- handleReset (src/App.tsx lines 148-153), after confirmation. -/
def handleReset (_s : AppState) : AppState := ⟨seededPlayers, initialTeams⟩

/-- The user-driven operations on the domain state.  Ids produced by makeId
appear as arguments; rename operations carry the raw edit-field text. -/
inductive Op where
  | createPlayer (newId rawName : String)
  | createTeam (newId rawName : String)
  | renamePlayer (playerId editName : String)
  | renameTeam (teamId editName : String)
  | removePlayer (playerId : String)
  | removeTeam (teamId : String)
  | movePlayer (carried : String) (target : Option String)
deriving DecidableEq

/-- One state transition per operation, each delegating to the handler it
names in src/App.tsx. -/
def step (s : AppState) : Op → AppState
  | .createPlayer newId raw => handleCreatePlayer s newId raw
  | .createTeam newId raw => handleCreateTeam s newId raw
  | .renamePlayer pid e => nametagSubmit s pid e
  | .renameTeam tid e => teamColumnSubmit s tid e
  | .removePlayer pid => handleRemovePlayer s pid
  | .removeTeam tid => handleRemoveTeam s tid
  | .movePlayer carried target => zoneOnDrop s carried target

/-- Run a sequence of operations from a starting state. -/
def run (s : AppState) (ops : List Op) : AppState := ops.foldl step s

/-- The drop zones rendered in the current state (src/App.tsx lines 312-338):
the bench zone with target none, plus one zone per current team with that
team's id as target. -/
def dropTargets (s : AppState) : List (Option String) :=
  none :: s.teams.map (fun t => some t.id)

/-- An operation is valid in a state when the UI can emit it there: a drag
drop only ever lands on a rendered drop zone, so a move's target must be one
of the current drop targets; every other operation is always available. -/
def opValid (s : AppState) : Op → Bool
  | .movePlayer _ target => decide (target ∈ dropTargets s)
  | _ => true

/-- A trace is valid when every operation is valid in the state it fires in. -/
def validTrace (s : AppState) : List Op → Bool
  | [] => true
  | op :: ops => opValid s op && validTrace (step s op) ops

/-- A single player satisfies referential integrity against a team list when
its teamId is null or the id of a listed team. -/
def playerOk (teams : List Team) (p : Player) : Bool :=
  match p.teamId with
  | none => true
  | some tid => teams.any (fun t => t.id == tid)

/-- Referential integrity: every player's teamId is null or the id of a
current team. -/
def refIntegrity (s : AppState) : Bool :=
  s.players.all (playerOk s.teams)

theorem dropWs_of_all_space : ∀ cs : List Char, cs.all isJsSpace = true → dropWs cs = [] := by
  intro cs h
  induction cs with
  | nil => rfl
  | cons c cs ih =>
    simp only [List.all_cons, Bool.and_eq_true] at h
    simp [dropWs, h.1, ih h.2]

theorem jsTrim_of_all_space (s : String) (h : s.data.all isJsSpace = true) : jsTrim s = "" := by
  have h1 : dropWs s.data.reverse = [] := by
    apply dropWs_of_all_space
    simpa using h
  simp [jsTrim, trimChars, h1, dropWs]

/-- C6: Create Player and Create Team with a name that is empty or all
whitespace leave the whole application state unchanged. -/
theorem create_blank_name_noop (s : AppState) (newId raw : String)
    (h : raw.data.all isJsSpace = true) :
    handleCreatePlayer s newId raw = s ∧ handleCreateTeam s newId raw = s := by
  have ht : jsTrim raw = "" := jsTrim_of_all_space raw h
  constructor
  · simp [handleCreatePlayer, ht]
  · simp [handleCreateTeam, ht]

/-- Witness for C6 at a concrete state and a whitespace-only input. -/
theorem create_blank_name_noop_witness :
    handleCreatePlayer seedState "fresh-id" "  " = seedState
    ∧ handleCreateTeam seedState "fresh-id" "  " = seedState :=
  create_blank_name_noop seedState "fresh-id" "  " (by decide)

/-- C5: Create Player with a non-blank name appends exactly one player at the
end, with the generated id, the trimmed name, color palette[n mod 8] for n
the current player count, and no team; earlier players and the team list are
untouched. -/
theorem createPlayer_appends (s : AppState) (newId raw : String)
    (h : jsTrim raw ≠ "") :
    (handleCreatePlayer s newId raw).players.length = s.players.length + 1
    ∧ (handleCreatePlayer s newId raw).players.take s.players.length = s.players
    ∧ (handleCreatePlayer s newId raw).players.getLast? =
        some { id := newId, name := jsTrim raw,
               color := palette.getD (s.players.length % 8) "", teamId := none }
    ∧ (handleCreatePlayer s newId raw).teams = s.teams := by
  simp only [handleCreatePlayer, if_neg h]
  refine ⟨by simp, by simp [List.take_left], ?_, by trivial⟩
  simp [List.getLast?_concat, paletteColor, palette]

/-- Witness for C5 on the seed state. -/
theorem createPlayer_appends_witness :
    jsTrim " Nova " ≠ ""
    ∧ ((handleCreatePlayer seedState "fresh-id" " Nova ").players.length
        = seedState.players.length + 1
    ∧ (handleCreatePlayer seedState "fresh-id" " Nova ").players.take seedState.players.length
        = seedState.players
    ∧ (handleCreatePlayer seedState "fresh-id" " Nova ").players.getLast? =
        some { id := "fresh-id", name := jsTrim " Nova ",
               color := palette.getD (seedState.players.length % 8) "", teamId := none }
    ∧ (handleCreatePlayer seedState "fresh-id" " Nova ").teams = seedState.teams) :=
  ⟨by decide, createPlayer_appends seedState "fresh-id" " Nova " (by decide)⟩

/-- C7: a drop with a carried player id sets that player's teamId to the drop
zone's target and changes nothing else (same order, same other fields, same
teams); a drop with an empty carried id changes nothing at all. -/
theorem movePlayer_spec (s : AppState) (carried : String) (target : Option String) :
    (carried = "" → zoneOnDrop s carried target = s)
    ∧ (carried ≠ "" →
        (zoneOnDrop s carried target).teams = s.teams
        ∧ (zoneOnDrop s carried target).players.length = s.players.length
        ∧ ∀ i (hi : i < s.players.length) (hi2 : i < (zoneOnDrop s carried target).players.length),
            ((s.players[i].id = carried →
                (zoneOnDrop s carried target).players[i] = { s.players[i] with teamId := target })
            ∧ (s.players[i].id ≠ carried →
                (zoneOnDrop s carried target).players[i] = s.players[i]))) := by
  constructor
  · intro h
    simp [zoneOnDrop, h]
  · intro h
    simp only [zoneOnDrop, if_neg h, handleDrop]
    refine ⟨by trivial, by simp, ?_⟩
    intro i hi hi2
    constructor
    · intro hid
      simp [List.getElem_map, hid]
    · intro hid
      simp [List.getElem_map, hid]

/-- Witness for C7: move the first seed player to team alpha, and check the
empty-payload no-op, on the seed state. -/
theorem movePlayer_spec_witness :
    zoneOnDrop seedState "" (some "alpha") = seedState
    ∧ (zoneOnDrop seedState "seed-a" (some "alpha")).teams = seedState.teams
    ∧ (zoneOnDrop seedState "seed-a" (some "alpha")).players.length
        = seedState.players.length :=
  ⟨(movePlayer_spec seedState "" (some "alpha")).1 rfl,
   ((movePlayer_spec seedState "seed-a" (some "alpha")).2 (by decide)).1,
   ((movePlayer_spec seedState "seed-a" (some "alpha")).2 (by decide)).2.1⟩

/-- C8: a rename submitted with a name that trims non-empty replaces only the
name field of the matching player (or team), leaving its other fields, every
other entity, collection order, and the other collection unchanged; a
whitespace-only submission leaves the state exactly as before the call. -/
theorem rename_spec (s : AppState) (eid editName : String) :
    (jsTrim editName = "" →
        nametagSubmit s eid editName = s ∧ teamColumnSubmit s eid editName = s)
    ∧ (jsTrim editName ≠ "" →
        (nametagSubmit s eid editName).teams = s.teams
        ∧ (nametagSubmit s eid editName).players.length = s.players.length
        ∧ (∀ i (hi : i < s.players.length)
              (hi2 : i < (nametagSubmit s eid editName).players.length),
            ((s.players[i].id = eid →
                (nametagSubmit s eid editName).players[i]
                  = { s.players[i] with name := jsTrim editName })
            ∧ (s.players[i].id ≠ eid →
                (nametagSubmit s eid editName).players[i] = s.players[i])))
        ∧ (teamColumnSubmit s eid editName).players = s.players
        ∧ (teamColumnSubmit s eid editName).teams.length = s.teams.length
        ∧ (∀ i (hi : i < s.teams.length)
              (hi2 : i < (teamColumnSubmit s eid editName).teams.length),
            ((s.teams[i].id = eid →
                (teamColumnSubmit s eid editName).teams[i]
                  = { s.teams[i] with name := jsTrim editName })
            ∧ (s.teams[i].id ≠ eid →
                (teamColumnSubmit s eid editName).teams[i] = s.teams[i])))) := by
  constructor
  · intro h
    exact ⟨by simp [nametagSubmit, h], by simp [teamColumnSubmit, h]⟩
  · intro h
    simp only [nametagSubmit, teamColumnSubmit, if_neg h,
      handleUpdatePlayerName, handleUpdateTeamName]
    refine ⟨by trivial, by simp, ?_, by trivial, by simp, ?_⟩
    · intro i hi hi2
      constructor
      · intro hid
        simp [List.getElem_map, hid]
      · intro hid
        simp [List.getElem_map, hid]
    · intro i hi hi2
      constructor
      · intro hid
        simp [List.getElem_map, hid]
      · intro hid
        simp [List.getElem_map, hid]

/-- Witness for C8: a whitespace-only rename is a no-op on the seed state, and
a real rename keeps the team list. -/
theorem rename_spec_witness :
    (nametagSubmit seedState "seed-a" "   " = seedState
      ∧ teamColumnSubmit seedState "seed-a" "   " = seedState)
    ∧ (nametagSubmit seedState "seed-a" " Zed ").teams = seedState.teams :=
  ⟨(rename_spec seedState "seed-a" "   ").1 (by decide),
   ((rename_spec seedState "seed-a" " Zed ").2 (by decide)).1⟩

theorem zip_self_map {α β : Type} (f : α → β) :
    ∀ l : List α, l.zip (l.map f) = l.map (fun a => (a, f a)) := by
  intro l
  induction l with
  | nil => rfl
  | cons a l ih => simp [ih]

/-- C2: removing a team deletes exactly the teams with that id (keeping the
others in order), and in the same transition nulls the teamId of exactly the
n players assigned to it, changing no other player, no other field, and not
the order of the player list. -/
theorem removeTeam_spec (s : AppState) (tid : String) (n : Nat)
    (hcount : (s.players.filter (fun p => p.teamId == some tid)).length = n) :
    (∀ t, t ∈ (handleRemoveTeam s tid).teams ↔ (t ∈ s.teams ∧ t.id ≠ tid))
    ∧ (handleRemoveTeam s tid).teams.Sublist s.teams
    ∧ (handleRemoveTeam s tid).players.length = s.players.length
    ∧ (∀ i (hi : i < s.players.length) (hi2 : i < (handleRemoveTeam s tid).players.length),
        ((s.players[i].teamId = some tid →
            (handleRemoveTeam s tid).players[i] = { s.players[i] with teamId := none })
        ∧ (s.players[i].teamId ≠ some tid →
            (handleRemoveTeam s tid).players[i] = s.players[i])))
    ∧ List.countP (fun pq => pq.1.teamId != pq.2.teamId)
        (s.players.zip (handleRemoveTeam s tid).players) = n := by
  refine ⟨?_, ?_, ?_, ?_, ?_⟩
  · intro t
    simp [handleRemoveTeam, List.mem_filter]
  · simp [handleRemoveTeam, List.filter_sublist]
  · simp [handleRemoveTeam]
  · intro i hi hi2
    constructor
    · intro hid
      simp [handleRemoveTeam, List.getElem_map, hid]
    · intro hid
      simp [handleRemoveTeam, List.getElem_map, hid]
  · subst hcount
    simp only [handleRemoveTeam]
    rw [zip_self_map]
    rw [List.countP_map, ← s.players.countP_eq_length_filter]
    apply List.countP_congr
    intro p _
    by_cases hp : p.teamId = some tid
    · simp [hp, Function.comp]
    · simp [hp, Function.comp]

/-- Witness for C2: on a three-player state, removing team alpha nulls the two
players assigned to it and keeps team bravo. -/
theorem removeTeam_spec_witness :
    ((⟨[⟨"p1", "A", "#111111", some "alpha"⟩,
        ⟨"p2", "B", "#222222", none⟩,
        ⟨"p3", "C", "#333333", some "alpha"⟩],
       [⟨"alpha", "Team Alpha", "#ffb347"⟩, ⟨"bravo", "Team Bravo", "#6dd5ed"⟩]⟩ : AppState)
        |>.players.filter (fun p => p.teamId == some "alpha")).length = 2
    ∧ (handleRemoveTeam
        (⟨[⟨"p1", "A", "#111111", some "alpha"⟩,
           ⟨"p2", "B", "#222222", none⟩,
           ⟨"p3", "C", "#333333", some "alpha"⟩],
          [⟨"alpha", "Team Alpha", "#ffb347"⟩, ⟨"bravo", "Team Bravo", "#6dd5ed"⟩]⟩ : AppState)
        "alpha").players.length
      = (⟨[⟨"p1", "A", "#111111", some "alpha"⟩,
           ⟨"p2", "B", "#222222", none⟩,
           ⟨"p3", "C", "#333333", some "alpha"⟩],
          [⟨"alpha", "Team Alpha", "#ffb347"⟩, ⟨"bravo", "Team Bravo", "#6dd5ed"⟩]⟩ : AppState).players.length :=
  ⟨by decide,
   (removeTeam_spec
      (⟨[⟨"p1", "A", "#111111", some "alpha"⟩,
         ⟨"p2", "B", "#222222", none⟩,
         ⟨"p3", "C", "#333333", some "alpha"⟩],
        [⟨"alpha", "Team Alpha", "#ffb347"⟩, ⟨"bravo", "Team Bravo", "#6dd5ed"⟩]⟩ : AppState)
      "alpha" 2 (by decide)).2.2.1⟩

/-- Recognizer for drag-drop move operations. -/
def isMoveOp : Op → Bool
  | .movePlayer _ _ => true
  | _ => false

theorem step_move_teams_eq (s : AppState) (op : Op) (h : isMoveOp op = true) :
    (step s op).teams = s.teams := by
  cases op <;> simp [isMoveOp] at h
  case movePlayer carried target =>
    by_cases hc : carried = ""
    · simp [step, zoneOnDrop, hc]
    · simp [step, zoneOnDrop, hc, handleDrop]

theorem run_moves_teams_eq (ops : List Op) :
    ∀ s : AppState, ops.all isMoveOp = true → (run s ops).teams = s.teams := by
  induction ops with
  | nil => intro s _; rfl
  | cons op ops ih =>
    intro s h
    simp only [List.all_cons, Bool.and_eq_true] at h
    have h1 := step_move_teams_eq s op h.1
    have h2 := ih (step s op) h.2
    simpa [run] using h2.trans h1

/-- C9: creating a team with a fresh id and later removing it (with only
drag-drop moves in between) restores the team collection exactly, and no
player is left assigned to the removed team. -/
theorem createRemoveTeam_roundtrip (s : AppState) (newId raw : String) (mid : List Op)
    (hname : jsTrim raw ≠ "") (hfresh : newId ∉ s.teams.map Team.id)
    (hmid : mid.all isMoveOp = true) :
    (handleRemoveTeam (run (handleCreateTeam s newId raw) mid) newId).teams = s.teams
    ∧ ∀ p ∈ (handleRemoveTeam (run (handleCreateTeam s newId raw) mid) newId).players,
        p.teamId ≠ some newId := by
  constructor
  · have hteams : (run (handleCreateTeam s newId raw) mid).teams
        = s.teams ++ [⟨newId, jsTrim raw, paletteColor s.teams.length⟩] := by
      rw [run_moves_teams_eq mid _ hmid]
      simp [handleCreateTeam, if_neg hname]
    simp only [handleRemoveTeam, hteams, List.filter_append]
    have h1 : s.teams.filter (fun t => t.id != newId) = s.teams := by
      rw [List.filter_eq_self]
      intro t ht
      simp only [bne_iff_ne, ne_eq, decide_eq_true_eq]
      intro hEq
      exact hfresh (List.mem_map.mpr ⟨t, ht, hEq⟩)
    rw [h1]
    simp
  · intro p hp
    simp only [handleRemoveTeam, List.mem_map] at hp
    obtain ⟨q, _, hq⟩ := hp
    by_cases hqt : q.teamId = some newId
    · rw [← hq]
      simp [hqt]
    · rw [← hq]
      simp [hqt]

/-- Witness for C9: create team Vanguard on the seed state, drag one player
onto it, then remove it; the team list is back to the two seed teams. -/
theorem createRemoveTeam_roundtrip_witness :
    (handleRemoveTeam
      (run (handleCreateTeam seedState "van-id" "Vanguard")
        [Op.movePlayer "seed-a" (some "van-id")])
      "van-id").teams = seedState.teams :=
  (createRemoveTeam_roundtrip seedState "van-id" "Vanguard"
      [Op.movePlayer "seed-a" (some "van-id")]
      (by decide) (by decide) (by decide)).1

theorem playerOk_iff (teams : List Team) (p : Player) :
    playerOk teams p = true ↔ ∀ tid, p.teamId = some tid → ∃ t ∈ teams, t.id = tid := by
  cases hp : p.teamId with
  | none => simp [playerOk, hp]
  | some tid => simp [playerOk, hp, List.any_eq_true]

theorem playerOk_teamId_eq (teams : List Team) (p q : Player) (h : q.teamId = p.teamId) :
    playerOk teams q = playerOk teams p := by
  simp [playerOk, h]

theorem playerOk_mono (teams teams' : List Team) (p : Player)
    (hsub : ∀ t ∈ teams, t ∈ teams') (h : playerOk teams p = true) :
    playerOk teams' p = true := by
  rw [playerOk_iff] at h ⊢
  intro tid htid
  obtain ⟨t, ht, hid⟩ := h tid htid
  exact ⟨t, hsub t ht, hid⟩

theorem refIntegrity_step (s : AppState) (op : Op)
    (hs : refIntegrity s = true) (hop : opValid s op = true) :
    refIntegrity (step s op) = true := by
  simp only [refIntegrity, List.all_eq_true] at hs ⊢
  cases op with
  | createPlayer newId raw =>
    by_cases ht : jsTrim raw = ""
    · simpa [step, handleCreatePlayer, ht] using hs
    · simp only [step, handleCreatePlayer, if_neg ht, List.mem_append, List.mem_singleton]
      rintro p (hp | rfl)
      · exact hs p hp
      · simp [playerOk]
  | createTeam newId raw =>
    by_cases ht : jsTrim raw = ""
    · simpa [step, handleCreateTeam, ht] using hs
    · simp only [step, handleCreateTeam, if_neg ht]
      intro p hp
      exact playerOk_mono s.teams _ p (fun t h => List.mem_append_left _ h) (hs p hp)
  | renamePlayer pid e =>
    by_cases ht : jsTrim e = ""
    · simpa [step, nametagSubmit, ht] using hs
    · simp only [step, nametagSubmit, if_neg ht, handleUpdatePlayerName, List.mem_map]
      rintro p ⟨q, hq, rfl⟩
      by_cases hid : q.id = pid
      · rw [if_pos hid, playerOk_teamId_eq s.teams q { q with name := jsTrim e } rfl]
        exact hs q hq
      · rw [if_neg hid]
        exact hs q hq
  | renameTeam tid e =>
    by_cases ht : jsTrim e = ""
    · simpa [step, teamColumnSubmit, ht] using hs
    · simp only [step, teamColumnSubmit, if_neg ht, handleUpdateTeamName]
      intro p hp
      have h := (playerOk_iff _ p).mp (hs p hp)
      rw [playerOk_iff]
      intro t htid
      obtain ⟨u, hu, hid⟩ := h t htid
      refine ⟨if u.id = tid then { u with name := jsTrim e } else u,
        List.mem_map.mpr ⟨u, hu, rfl⟩, ?_⟩
      by_cases hc : u.id = tid
      · rw [if_pos hc]
        exact hid
      · rw [if_neg hc]
        exact hid
  | removePlayer pid =>
    simp only [step, handleRemovePlayer]
    intro p hp
    exact hs p (List.mem_of_mem_filter hp)
  | removeTeam tid =>
    simp only [step, handleRemoveTeam, List.mem_map]
    rintro p ⟨q, hq, rfl⟩
    by_cases hqt : q.teamId = some tid
    · simp [hqt, playerOk]
    · have h := (playerOk_iff _ q).mp (hs q hq)
      simp only [if_neg hqt]
      rw [playerOk_iff]
      intro t htid
      obtain ⟨u, hu, hid⟩ := h t htid
      refine ⟨u, ?_, hid⟩
      rw [List.mem_filter]
      refine ⟨hu, ?_⟩
      simp only [bne_iff_ne, ne_eq, decide_eq_true_eq]
      intro hutid
      exact hqt (by rw [htid, ← hid, hutid])
  | movePlayer carried target =>
    by_cases hc : carried = ""
    · simpa [step, zoneOnDrop, hc] using hs
    · simp only [step, zoneOnDrop, if_neg hc, handleDrop, List.mem_map]
      rintro p ⟨q, hq, rfl⟩
      have hop2 : target ∈ dropTargets s := by
        simpa [opValid] using hop
      by_cases hid : q.id = carried
      · simp only [if_pos hid]
        rw [playerOk_iff]
        intro t htid
        have htarget : target = some t := htid
        rcases List.mem_cons.mp hop2 with hnone | hmem
        · rw [hnone] at htarget
          exact absurd htarget (by simp)
        · rw [List.mem_map] at hmem
          obtain ⟨u, hu, huid⟩ := hmem
          rw [← huid] at htarget
          exact ⟨u, hu, Option.some.inj htarget⟩
      · simp only [if_neg hid]
        exact hs q hq

theorem validTrace_append_left (pre suf : List Op) :
    ∀ s : AppState, validTrace s (pre ++ suf) = true → validTrace s pre = true := by
  induction pre with
  | nil => intro s _; rfl
  | cons op ops ih =>
    intro s h
    simp only [List.cons_append, validTrace, Bool.and_eq_true] at h ⊢
    exact ⟨h.1, ih (step s op) h.2⟩

theorem trace_refIntegrity (ops : List Op) :
    ∀ s : AppState, refIntegrity s = true → validTrace s ops = true →
      refIntegrity (run s ops) = true := by
  induction ops with
  | nil => intro s hs _; exact hs
  | cons op ops ih =>
    intro s hs h
    simp only [validTrace, Bool.and_eq_true] at h
    exact ih (step s op) (refIntegrity_step s op hs h.1) h.2

theorem refIntegrity_seed : refIntegrity seedState = true := by decide

/-- C1: along every UI-reachable sequence of operations from the seed state
(each drag drop landing on a zone rendered in its pre-state), referential
integrity holds after every operation: each player's teamId is null or the
id of a team present at that moment. -/
theorem referential_integrity_invariant (ops : List Op)
    (h : validTrace seedState ops = true) :
    ∀ pre suf : List Op, ops = pre ++ suf →
      refIntegrity (run seedState pre) = true := by
  intro pre suf hsplit
  subst hsplit
  exact trace_refIntegrity pre seedState refIntegrity_seed
    (validTrace_append_left pre suf seedState h)

/-- Witness for C1: a concrete valid trace that creates a team, drags a
player onto it, and removes it again. -/
theorem referential_integrity_invariant_witness :
    refIntegrity (run seedState
      [Op.createTeam "gold-id" "Gold", Op.movePlayer "seed-a" (some "gold-id")]) = true :=
  referential_integrity_invariant
    [Op.createTeam "gold-id" "Gold", Op.movePlayer "seed-a" (some "gold-id"),
     Op.removeTeam "gold-id"]
    (by decide)
    [Op.createTeam "gold-id" "Gold", Op.movePlayer "seed-a" (some "gold-id")]
    [Op.removeTeam "gold-id"] rfl

/-- Strict lexicographic comparison of character lists by code point, the
order underlying the localeCompare model. -/
def lexLt : List Char → List Char → Bool
  | [], [] => false
  | [], _ :: _ => true
  | _ :: _, [] => false
  | a :: as, b :: bs =>
    if a.toNat < b.toNat then true
    else if b.toNat < a.toNat then false
    else lexLt as bs

/-- Model of a.localeCompare(b) <= 0: the ascending comparison used to sort
roster buckets.  localeCompare is locale dependent; it is modelled by plain
lexicographic code-point comparison. -/
def nameLe (a b : String) : Bool := !(lexLt b.data a.data)

/-- The sort relation of src/App.tsx line 170: compare players by name. -/
def byName (p q : Player) : Prop := nameLe p.name q.name = true

instance byName.instDecidable : DecidableRel byName := fun p q =>
  inferInstanceAs (Decidable (nameLe p.name q.name = true))

theorem lexLt_irrefl : ∀ as, lexLt as as = false := by
  intro as
  induction as with
  | nil => rfl
  | cons a as ih => simp [lexLt, ih]

theorem lexLt_trans : ∀ as bs cs, lexLt as bs = true → lexLt bs cs = true →
    lexLt as cs = true := by
  intro as
  induction as with
  | nil =>
    intro bs cs h1 h2
    cases bs <;> cases cs <;> simp_all [lexLt]
  | cons a as ih =>
    intro bs cs h1 h2
    cases bs with
    | nil => simp_all [lexLt]
    | cons b bs =>
      cases cs with
      | nil => simp_all [lexLt]
      | cons c cs =>
        simp only [lexLt] at h1 h2 ⊢
        by_cases hab : a.toNat < b.toNat <;> by_cases hba : b.toNat < a.toNat <;>
          by_cases hbc : b.toNat < c.toNat <;> by_cases hcb : c.toNat < b.toNat <;>
          simp only [hab, hba, hbc, hcb, if_true, if_false, ite_true, ite_false,
            if_pos, if_neg, reduceIte] at h1 h2 <;>
          first
            | omega
            | (have hac : a.toNat < c.toNat := by omega
               simp [hac])
            | (have hac : ¬ a.toNat < c.toNat := by omega
               have hca : ¬ c.toNat < a.toNat := by omega
               simp [hac, hca]
               exact ih bs cs h1 h2)
            | simp_all

theorem lexLt_conn : ∀ as bs, lexLt as bs = false → lexLt bs as = false → as = bs := by
  intro as
  induction as with
  | nil => intro bs h1 h2; cases bs <;> simp_all [lexLt]
  | cons a as ih =>
    intro bs h1 h2
    cases bs with
    | nil => simp_all [lexLt]
    | cons b bs =>
      simp only [lexLt] at h1 h2
      by_cases hab : a.toNat < b.toNat
      · rw [if_pos hab] at h1
        exact absurd h1 (by simp)
      · by_cases hba : b.toNat < a.toNat
        · rw [if_pos hba] at h2
          exact absurd h2 (by simp)
        · rw [if_neg hab, if_neg hba] at h1
          rw [if_neg hba, if_neg hab] at h2
          have hc : a = b := by
            apply Char.ext
            apply UInt32.ext
            simp only [Char.toNat] at hab hba
            omega
          subst hc
          rw [ih bs h1 h2]

instance byName.instIsTotal : IsTotal Player byName := by
  constructor
  intro p q
  simp only [byName, nameLe, Bool.not_eq_true']
  by_cases h : lexLt q.name.data p.name.data = false
  · exact Or.inl h
  · refine Or.inr ?_
    simp only [Bool.not_eq_false] at h
    by_cases h2 : lexLt p.name.data q.name.data = false
    · exact h2
    · simp only [Bool.not_eq_false] at h2
      have := lexLt_trans _ _ _ h h2
      rw [lexLt_irrefl] at this
      exact absurd this (by simp)

instance byName.instIsTrans : IsTrans Player byName := by
  constructor
  intro p q r h1 h2
  simp only [byName, nameLe, Bool.not_eq_true'] at h1 h2 ⊢
  by_cases hra : lexLt r.name.data p.name.data = false
  · exact hra
  · simp only [Bool.not_eq_false] at hra
    exfalso
    by_cases hpq : lexLt p.name.data q.name.data = false
    · have hqp : q.name.data = p.name.data := lexLt_conn _ _ h1 hpq
      rw [hqp] at h2
      exact absurd hra (by simp [h2])
    · simp only [Bool.not_eq_false] at hpq
      have hrq : lexLt r.name.data q.name.data = true := lexLt_trans _ _ _ hra hpq
      exact absurd hrq (by simp [h2])

/-- Sorting a roster bucket, modelling list.sort((a, b) =>
a.name.localeCompare(b.name)) from src/App.tsx lines 169-171. -/
def sortBucket (l : List Player) : List Player := List.insertionSort byName l

/-- The key a player is grouped under: its teamId, or bench when null
(src/App.tsx line 162). -/
def bucketKey (p : Player) : String := p.teamId.getD "bench"

/-- JavaScript object write teamPlayers[k] = v on a string-keyed record:
overwrite in place when the key exists, otherwise append the new key,
matching insertion-order key semantics. -/
def recSet : List (String × List Player) → String → List Player → List (String × List Player)
  | [], k, v => [(k, v)]
  | e :: m, k, v => if e.1 = k then (k, v) :: m else e :: recSet m k v

/-- JavaScript object read teamPlayers[k]: the stored list, or nothing
(here the empty list) when the key is absent. -/
def recGet : List (String × List Player) → String → List Player
  | [], _ => []
  | e :: m, k => if e.1 = k then e.2 else recGet m k

/-- The record after the teams loop of src/App.tsx lines 156-159: bench
first, then one empty bucket per team. -/
def rosterInit (teams : List Team) : List (String × List Player) :=
  teams.foldl (fun m t => recSet m t.id []) [("bench", [])]

/-- One iteration of the players loop of src/App.tsx lines 161-167: create
the bucket if absent, then push the player onto it. -/
def bucketAdd (m : List (String × List Player)) (p : Player) : List (String × List Player) :=
  recSet m (bucketKey p) (recGet m (bucketKey p) ++ [p])

/-- The grouped record before sorting. -/
def rosterRaw (players : List Player) (teams : List Team) : List (String × List Player) :=
  players.foldl bucketAdd (rosterInit teams)

/-- The Roster Projector (src/App.tsx lines 155-174): group players by team
id (bench for null), then sort every bucket by name. -/
def roster (players : List Player) (teams : List Team) : List (String × List Player) :=
  (rosterRaw players teams).map (fun e => (e.1, sortBucket e.2))

/-- The keys of a record, in insertion order. -/
def rosterKeys (m : List (String × List Player)) : List String := m.map Prod.fst

theorem rosterKeys_recSet (m : List (String × List Player)) (k : String) (v : List Player) :
    rosterKeys (recSet m k v) =
      if k ∈ rosterKeys m then rosterKeys m else rosterKeys m ++ [k] := by
  induction m with
  | nil => simp [recSet, rosterKeys]
  | cons e m ih =>
    by_cases hek : e.1 = k
    · simp [recSet, hek, rosterKeys]
    · simp only [recSet, if_neg hek, rosterKeys, List.map_cons] at ih ⊢
      rw [ih]
      by_cases hk : k ∈ m.map Prod.fst
      · simp [hk]
      · simp only [hk, if_false, ite_false]
        have : ¬ k ∈ e.1 :: m.map Prod.fst := by
          simp only [List.mem_cons]
          rintro (rfl | h)
          · exact hek rfl
          · exact hk h
        simp [this]

theorem mem_rosterKeys_recSet (m : List (String × List Player)) (k a : String)
    (v : List Player) :
    a ∈ rosterKeys (recSet m k v) ↔ a ∈ rosterKeys m ∨ a = k := by
  rw [rosterKeys_recSet]
  by_cases hk : k ∈ rosterKeys m
  · rw [if_pos hk]
    constructor
    · exact Or.inl
    · rintro (h | rfl)
      · exact h
      · exact hk
  · rw [if_neg hk]
    simp

theorem nodup_rosterKeys_recSet (m : List (String × List Player)) (k : String)
    (v : List Player) (h : (rosterKeys m).Nodup) : (rosterKeys (recSet m k v)).Nodup := by
  rw [rosterKeys_recSet]
  by_cases hk : k ∈ rosterKeys m
  · rw [if_pos hk]
    exact h
  · rw [if_neg hk]
    simp [List.nodup_append, h, hk]

theorem mem_recSet (m : List (String × List Player)) (k : String) (v : List Player) :
    ∀ e ∈ recSet m k v, e ∈ m ∨ e = (k, v) := by
  induction m with
  | nil => simp [recSet]
  | cons e0 m ih =>
    intro e he
    by_cases hek : e0.1 = k
    · simp only [recSet, if_pos hek, List.mem_cons] at he
      rcases he with rfl | he
      · exact Or.inr rfl
      · exact Or.inl (List.mem_cons_of_mem _ he)
    · simp only [recSet, if_neg hek, List.mem_cons] at he
      rcases he with rfl | he
      · exact Or.inl (List.mem_cons_self _ _)
      · rcases ih e he with h | h
        · exact Or.inl (List.mem_cons_of_mem _ h)
        · exact Or.inr h

/-- The grouping invariant: every stored player sits in the bucket named by
its own key. -/
def RosterInv (m : List (String × List Player)) : Prop :=
  ∀ e ∈ m, ∀ p ∈ e.2, e.1 = bucketKey p

theorem recGet_key (m : List (String × List Player)) (k : String) (hInv : RosterInv m) :
    ∀ q ∈ recGet m k, k = bucketKey q := by
  induction m with
  | nil => simp [recGet]
  | cons e m ih =>
    intro q hq
    by_cases hek : e.1 = k
    · rw [recGet, if_pos hek] at hq
      rw [← hek]
      exact hInv e (List.mem_cons_self _ _) q hq
    · rw [recGet, if_neg hek] at hq
      exact ih (fun e he => hInv e (List.mem_cons_of_mem _ he)) q hq

theorem rosterInv_recSet (m : List (String × List Player)) (k : String) (v : List Player)
    (hInv : RosterInv m) (hv : ∀ q ∈ v, k = bucketKey q) : RosterInv (recSet m k v) := by
  intro e he p hp
  rcases mem_recSet m k v e he with h | rfl
  · exact hInv e h p hp
  · exact hv p hp

theorem rosterInv_bucketAdd (m : List (String × List Player)) (p : Player)
    (hInv : RosterInv m) : RosterInv (bucketAdd m p) := by
  apply rosterInv_recSet _ _ _ hInv
  intro q hq
  rcases List.mem_append.mp hq with h | h
  · exact recGet_key m (bucketKey p) hInv q h
  · rw [List.mem_singleton.mp h]

theorem flatten_recSet_push (k : String) (p : Player) :
    ∀ m : List (String × List Player),
      ((recSet m k (recGet m k ++ [p])).map Prod.snd).flatten.Perm
        ((m.map Prod.snd).flatten ++ [p]) := by
  intro m
  induction m with
  | nil => simp [recSet, recGet]
  | cons e m ih =>
    by_cases hek : e.1 = k
    · simp only [recGet, if_pos hek, recSet, List.map_cons, List.flatten_cons,
        List.append_assoc]
      exact List.Perm.append_left e.2 (List.perm_append_comm)
    · simp only [recGet, if_neg hek, recSet, List.map_cons, List.flatten_cons,
        List.append_assoc]
      exact List.Perm.append_left e.2 ih

theorem flatten_bucketAdd (m : List (String × List Player)) (p : Player) :
    ((bucketAdd m p).map Prod.snd).flatten.Perm ((m.map Prod.snd).flatten ++ [p]) :=
  flatten_recSet_push (bucketKey p) p m

theorem flatten_foldl_bucketAdd (players : List Player) :
    ∀ m : List (String × List Player),
      ((players.foldl bucketAdd m).map Prod.snd).flatten.Perm
        ((m.map Prod.snd).flatten ++ players) := by
  induction players with
  | nil => intro m; simp
  | cons p ps ih =>
    intro m
    have h1 := ih (bucketAdd m p)
    have h2 := (flatten_bucketAdd m p).append_right ps
    have h3 := h1.trans h2
    simpa using h3

theorem rosterInit_vals_nil (teams : List Team) :
    ∀ m : List (String × List Player), (∀ e ∈ m, e.2 = ([] : List Player)) →
      ∀ e ∈ teams.foldl (fun m t => recSet m t.id []) m, e.2 = ([] : List Player) := by
  induction teams with
  | nil => intro m hm; exact hm
  | cons t ts ih =>
    intro m hm
    apply ih
    intro e he
    rcases mem_recSet m t.id [] e he with h | rfl
    · exact hm e h
    · rfl

theorem mem_keys_foldl_teams (teams : List Team) :
    ∀ (m : List (String × List Player)) (k : String), k ∈ rosterKeys m →
      k ∈ rosterKeys (teams.foldl (fun m t => recSet m t.id []) m) := by
  induction teams with
  | nil => intro m k h; exact h
  | cons t ts ih =>
    intro m k h
    exact ih _ k ((mem_rosterKeys_recSet m t.id k []).mpr (Or.inl h))

theorem teamid_mem_keys (teams : List Team) :
    ∀ m : List (String × List Player), ∀ t ∈ teams,
      t.id ∈ rosterKeys (teams.foldl (fun m t => recSet m t.id []) m) := by
  induction teams with
  | nil => simp
  | cons t0 ts ih =>
    intro m t ht
    rcases List.mem_cons.mp ht with rfl | ht
    · exact mem_keys_foldl_teams ts _ t.id
        ((mem_rosterKeys_recSet m t.id t.id []).mpr (Or.inr rfl))
    · exact ih _ t ht

theorem mem_keys_foldl_players (players : List Player) :
    ∀ (m : List (String × List Player)) (k : String), k ∈ rosterKeys m →
      k ∈ rosterKeys (players.foldl bucketAdd m) := by
  induction players with
  | nil => intro m k h; exact h
  | cons p ps ih =>
    intro m k h
    exact ih _ k ((mem_rosterKeys_recSet m (bucketKey p) k _).mpr (Or.inl h))

theorem nodup_keys_foldl_teams (teams : List Team) :
    ∀ m : List (String × List Player), (rosterKeys m).Nodup →
      (rosterKeys (teams.foldl (fun m t => recSet m t.id []) m)).Nodup := by
  induction teams with
  | nil => intro m h; exact h
  | cons t ts ih =>
    intro m h
    exact ih _ (nodup_rosterKeys_recSet m t.id [] h)

theorem nodup_keys_foldl_players (players : List Player) :
    ∀ m : List (String × List Player), (rosterKeys m).Nodup →
      (rosterKeys (players.foldl bucketAdd m)).Nodup := by
  induction players with
  | nil => intro m h; exact h
  | cons p ps ih =>
    intro m h
    exact ih _ (nodup_rosterKeys_recSet m (bucketKey p) _ h)

theorem rosterInv_foldl_players (players : List Player) :
    ∀ m : List (String × List Player), RosterInv m →
      RosterInv (players.foldl bucketAdd m) := by
  induction players with
  | nil => intro m h; exact h
  | cons p ps ih =>
    intro m h
    exact ih _ (rosterInv_bucketAdd m p h)

theorem rosterRaw_inv (players : List Player) (teams : List Team) :
    RosterInv (rosterRaw players teams) := by
  apply rosterInv_foldl_players
  intro e he p hp
  have := rosterInit_vals_nil teams [("bench", [])] (by simp) e he
  rw [this] at hp
  exact absurd hp (List.not_mem_nil p)

theorem rosterKeys_map_sort (m : List (String × List Player)) :
    rosterKeys (m.map (fun e => (e.1, sortBucket e.2))) = rosterKeys m := by
  simp [rosterKeys, List.map_map, Function.comp]

theorem flatten_map_sort (m : List (String × List Player)) :
    ((m.map (fun e => (e.1, sortBucket e.2))).map Prod.snd).flatten.Perm
      ((m.map Prod.snd).flatten) := by
  induction m with
  | nil => simp
  | cons e m ih =>
    simp only [List.map_cons, List.flatten_cons]
    exact (List.perm_insertionSort byName e.2).append ih

/-- C3: for every player list and team list, the Roster Projector produces a
record whose keys include bench and every team id with no duplicate key,
every stored player sits exactly in the bucket named by its teamId (bench
for null), the bucket contents concatenate to a permutation of the player
collection (no player missing, none duplicated), and every bucket is sorted
ascending by name. -/
theorem roster_spec (players : List Player) (teams : List Team) :
    "bench" ∈ rosterKeys (roster players teams)
    ∧ (∀ t ∈ teams, t.id ∈ rosterKeys (roster players teams))
    ∧ (rosterKeys (roster players teams)).Nodup
    ∧ (∀ e ∈ roster players teams, ∀ p ∈ e.2, e.1 = bucketKey p)
    ∧ ((roster players teams).map Prod.snd).flatten.Perm players
    ∧ (∀ e ∈ roster players teams, e.2.Sorted byName) := by
  have hbench : "bench" ∈ rosterKeys (rosterRaw players teams) := by
    apply mem_keys_foldl_players
    apply mem_keys_foldl_teams
    simp [rosterKeys]
  have hteams : ∀ t ∈ teams, t.id ∈ rosterKeys (rosterRaw players teams) := by
    intro t ht
    exact mem_keys_foldl_players players _ t.id (teamid_mem_keys teams _ t ht)
  have hnodup : (rosterKeys (rosterRaw players teams)).Nodup := by
    apply nodup_keys_foldl_players
    apply nodup_keys_foldl_teams
    simp [rosterKeys]
  have hflat : ((rosterRaw players teams).map Prod.snd).flatten.Perm players := by
    have h1 := flatten_foldl_bucketAdd players (rosterInit teams)
    have h2 : ((rosterInit teams).map Prod.snd).flatten = [] := by
      rw [List.flatten_eq_nil_iff]
      intro l hl
      rw [List.mem_map] at hl
      obtain ⟨e, he, rfl⟩ := hl
      exact rosterInit_vals_nil teams [("bench", [])] (by simp) e he
    rw [h2] at h1
    simpa using h1
  have hinv := rosterRaw_inv players teams
  refine ⟨?_, ?_, ?_, ?_, ?_, ?_⟩
  · rw [roster, rosterKeys_map_sort]
    exact hbench
  · intro t ht
    rw [roster, rosterKeys_map_sort]
    exact hteams t ht
  · rw [roster, rosterKeys_map_sort]
    exact hnodup
  · intro e he p hp
    rw [roster, List.mem_map] at he
    obtain ⟨e0, he0, rfl⟩ := he
    simp only at hp
    have hp0 : p ∈ e0.2 := (List.perm_insertionSort byName e0.2).mem_iff.mp hp
    exact hinv e0 he0 p hp0
  · exact (flatten_map_sort (rosterRaw players teams)).trans hflat
  · intro e he
    rw [roster, List.mem_map] at he
    obtain ⟨e0, he0, rfl⟩ := he
    exact List.sorted_insertionSort byName e0.2

/-- Witness for C3: on the seed data the projected record contains the bench
key and the id of seed team alpha. -/
theorem roster_spec_witness :
    "bench" ∈ rosterKeys (roster seededPlayers initialTeams)
    ∧ "alpha" ∈ rosterKeys (roster seededPlayers initialTeams) :=
  ⟨(roster_spec seededPlayers initialTeams).1,
   (roster_spec seededPlayers initialTeams).2.1
     ⟨"alpha", "Team Alpha", "#ffb347"⟩ (by decide)⟩

/-- JSON values, the data exchanged with the cookie store.  Numbers are
modelled as integers: the app serializes no numbers, and no theorem below
evaluates the parser on fractional input. -/
inductive Json where
  | null : Json
  | bool (b : Bool) : Json
  | num (n : Int) : Json
  | str (s : String) : Json
  | arr (items : List Json) : Json
  | obj (fields : List (String × Json)) : Json

/-- Lowercase hexadecimal digit for values below 16. -/
def hexDigit (n : Nat) : Char :=
  if n < 10 then Char.ofNat (48 + n) else Char.ofNat (87 + n)

/-- Value of a hexadecimal digit character. -/
def hexVal (c : Char) : Option Nat :=
  if 48 ≤ c.toNat ∧ c.toNat ≤ 57 then some (c.toNat - 48)
  else if 97 ≤ c.toNat ∧ c.toNat ≤ 102 then some (c.toNat - 87)
  else if 65 ≤ c.toNat ∧ c.toNat ≤ 70 then some (c.toNat - 55)
  else none

/-- Decoded character of a single-letter JSON escape sequence. -/
def escChar (e : Char) : Option Char :=
  if e = '"' then some '"'
  else if e = '\\' then some '\\'
  else if e = '/' then some '/'
  else if e = 'b' then some '\x08'
  else if e = 'f' then some '\x0c'
  else if e = 'n' then some '\n'
  else if e = 'r' then some '\r'
  else if e = 't' then some '\t'
  else none

/-- JSON.stringify escaping of one character: quote and backslash get a
backslash escape, control characters a \u escape, everything else passes
through. -/
def escapeChar (c : Char) : List Char :=
  if c = '"' then ['\\', '"']
  else if c = '\\' then ['\\', '\\']
  else if c.toNat < 32 then
    ['\\', 'u', '0', '0', hexDigit (c.toNat / 16), hexDigit (c.toNat % 16)]
  else [c]

/-- Escaped body of a serialized JSON string. -/
def stringEscape (cs : List Char) : List Char := (cs.map escapeChar).flatten

/-- Serialized JSON string: quote, escaped body, quote. -/
def stringifyString (s : String) : List Char := '"' :: stringEscape s.data ++ ['"']

/-- Decimal digits of a natural number, most significant first, with fuel. -/
def natDigits : Nat → Nat → List Char
  | 0, _ => []
  | fuel+1, n =>
    if n < 10 then [hexDigit n]
    else natDigits fuel (n / 10) ++ [hexDigit (n % 10)]

/-- Decimal form of an integer. -/
def intChars (i : Int) : List Char :=
  if i < 0 then '-' :: natDigits (i.natAbs + 1) i.natAbs else natDigits (i.natAbs + 1) i.natAbs

mutual
/-- Model of JSON.stringify: no added whitespace, object keys in insertion
order. -/
def stringifyJson : Json → List Char
  | .null => "null".data
  | .bool b => if b then "true".data else "false".data
  | .num n => intChars n
  | .str s => stringifyString s
  | .arr items => '[' :: stringifyItems items ++ [']']
  | .obj fields => '\x7b' :: stringifyFields fields ++ ['\x7d']

/-- Comma-separated serialized array elements. -/
def stringifyItems : List Json → List Char
  | [] => []
  | [j] => stringifyJson j
  | j :: rest => stringifyJson j ++ ',' :: stringifyItems rest

/-- Comma-separated serialized object fields. -/
def stringifyFields : List (String × Json) → List Char
  | [] => []
  | [(k, v)] => stringifyString k ++ ':' :: stringifyJson v
  | (k, v) :: rest => stringifyString k ++ ':' :: stringifyJson v ++ ',' :: stringifyFields rest
end

/-- Serialized text of a JSON value, as written to the cookie slot. -/
def stringifyText (j : Json) : String := ⟨stringifyJson j⟩

/-- JSON whitespace. -/
def isJsonWs (c : Char) : Bool :=
  c == ' ' || c == '\t' || c == '\n' || c == '\r'

/-- Drop leading JSON whitespace. -/
def skipWs : List Char → List Char
  | [] => []
  | c :: cs => if isJsonWs c then skipWs cs else c :: cs

/-- Match an exact literal character sequence, returning the remainder. -/
def expectLit : List Char → List Char → Option (List Char)
  | [], cs => some cs
  | _ :: _, [] => none
  | e :: es, c :: cs => if c = e then expectLit es cs else none

/-- Parse the body of a JSON string after the opening quote, returning the
decoded characters and the text after the closing quote. -/
def parseStringBody : List Char → Option (List Char × List Char)
  | [] => none
  | c :: cs =>
    if c = '"' then some ([], cs)
    else if c = '\\' then
      match cs with
      | [] => none
      | e :: cs2 =>
        if e = 'u' then
          match cs2 with
          | h1 :: h2 :: h3 :: h4 :: cs3 =>
            match hexVal h1, hexVal h2, hexVal h3, hexVal h4 with
            | some a, some b, some c2, some d =>
              (parseStringBody cs3).map
                (fun r => (Char.ofNat (((a * 16 + b) * 16 + c2) * 16 + d) :: r.1, r.2))
            | _, _, _, _ => none
          | _ => none
        else
          match escChar e with
          | some d => (parseStringBody cs2).map (fun r => (d :: r.1, r.2))
          | none => none
    else if c.toNat < 32 then none
    else (parseStringBody cs).map (fun r => (c :: r.1, r.2))

/-- Decimal digit test. -/
def isDigitChar (c : Char) : Bool := 48 ≤ c.toNat && c.toNat ≤ 57

/-- Consume leading decimal digits, accumulating their value. -/
def parseDigitsAux : List Char → Nat → Nat × List Char
  | [], acc => (acc, [])
  | c :: cs, acc =>
    if isDigitChar c then parseDigitsAux cs (acc * 10 + (c.toNat - 48)) else (acc, c :: cs)

/-- Parse a JSON number.  Modelled for optionally negated decimal integer
literals; fraction and exponent forms do not occur in any theorem below. -/
def parseNumber : List Char → Option (Json × List Char)
  | [] => none
  | c :: cs =>
    if c = '-' then
      match cs with
      | c2 :: cs2 =>
        if isDigitChar c2 then
          let r := parseDigitsAux cs2 (c2.toNat - 48)
          some (Json.num (-(r.1 : Int)), r.2)
        else none
      | [] => none
    else if isDigitChar c then
      let r := parseDigitsAux cs (c.toNat - 48)
      some (Json.num (r.1 : Int), r.2)
    else none

mutual
/-- Model of JSON.parse, fueled to make the recursion structural: parse one
JSON value, returning it and the unconsumed text. -/
def parseValue : Nat → List Char → Option (Json × List Char)
  | 0, _ => none
  | fuel+1, cs =>
    match skipWs cs with
    | [] => none
    | c :: rest =>
      if c = 'n' then (expectLit ['u', 'l', 'l'] rest).map (fun r => (Json.null, r))
      else if c = 't' then (expectLit ['r', 'u', 'e'] rest).map (fun r => (Json.bool true, r))
      else if c = 'f' then (expectLit ['a', 'l', 's', 'e'] rest).map (fun r => (Json.bool false, r))
      else if c = '"' then (parseStringBody rest).map (fun r => (Json.str ⟨r.1⟩, r.2))
      else if c = '[' then
        match skipWs rest with
        | [] => none
        | c2 :: rest2 =>
          if c2 = ']' then some (Json.arr [], rest2)
          else (parseArrItems fuel (c2 :: rest2)).map (fun r => (Json.arr r.1, r.2))
      else if c = '\x7b' then
        match skipWs rest with
        | [] => none
        | c2 :: rest2 =>
          if c2 = '\x7d' then some (Json.obj [], rest2)
          else (parseObjItems fuel (c2 :: rest2)).map (fun r => (Json.obj r.1, r.2))
      else parseNumber (c :: rest)

/-- Parse the comma-separated items of a non-empty JSON array, consuming the
closing bracket. -/
def parseArrItems : Nat → List Char → Option (List Json × List Char)
  | 0, _ => none
  | fuel+1, cs =>
    match parseValue fuel cs with
    | none => none
    | some r =>
      match skipWs r.2 with
      | [] => none
      | c2 :: rest2 =>
        if c2 = ',' then (parseArrItems fuel rest2).map (fun q => (r.1 :: q.1, q.2))
        else if c2 = ']' then some ([r.1], rest2)
        else none

/-- Parse the comma-separated fields of a non-empty JSON object, consuming
the closing brace. -/
def parseObjItems : Nat → List Char → Option (List (String × Json) × List Char)
  | 0, _ => none
  | fuel+1, cs =>
    match skipWs cs with
    | [] => none
    | c0 :: rest0 =>
      if c0 = '"' then
        match parseStringBody rest0 with
        | none => none
        | some rk =>
          match skipWs rk.2 with
          | [] => none
          | c1 :: rest1 =>
            if c1 = ':' then
              match parseValue fuel rest1 with
              | none => none
              | some rv =>
                match skipWs rv.2 with
                | [] => none
                | c2 :: rest2 =>
                  if c2 = ',' then
                    (parseObjItems fuel rest2).map (fun q => ((⟨rk.1⟩, rv.1) :: q.1, q.2))
                  else if c2 = '\x7d' then some ([(⟨rk.1⟩, rv.1)], rest2)
                  else none
            else none
      else none
end

/-- Model of JSON.parse on a whole text: parse one value with ample fuel and
require only whitespace after it; none models a thrown SyntaxError. -/
def parseJsonText (s : String) : Option Json :=
  match parseValue (s.data.length + 1) s.data with
  | some r => if skipWs r.2 = [] then some r.1 else none
  | none => none

/-- JSON value JSON.stringify produces for one player (field order follows
the object literals in src/App.tsx). -/
def playerJson (p : Player) : Json :=
  .obj [("id", .str p.id), ("name", .str p.name), ("color", .str p.color),
        ("teamId", match p.teamId with | none => .null | some t => .str t)]

/-- JSON value serialized for the players slot. -/
def playersJson (ps : List Player) : Json := .arr (ps.map playerJson)

/-- JSON value JSON.stringify produces for one team. -/
def teamJson (t : Team) : Json :=
  .obj [("id", .str t.id), ("name", .str t.name), ("accent", .str t.accent)]

/-- JSON value serialized for the teams slot. -/
def teamsJson (ts : List Team) : Json := .arr (ts.map teamJson)

/-- Read one player back from a JSON value: the shape the app itself wrote.
The code performs no such validation (JSON.parse output is used verbatim);
this reading is the statement-level inverse used to express that a parsed
snapshot denotes the same collection. -/
def decodePlayer : Json → Option Player
  | .obj [("id", .str i), ("name", .str n), ("color", .str c), ("teamId", tj)] =>
    match tj with
    | .null => some ⟨i, n, c, none⟩
    | .str t => some ⟨i, n, c, some t⟩
    | _ => none
  | _ => none

/-- Read a player list back from a JSON array. -/
def decodePlayerList : List Json → Option (List Player)
  | [] => some []
  | j :: rest =>
    match decodePlayer j with
    | none => none
    | some p =>
      match decodePlayerList rest with
      | none => none
      | some ps => some (p :: ps)

/-- Read the players slot back from a JSON value. -/
def decodePlayers : Json → Option (List Player)
  | .arr items => decodePlayerList items
  | _ => none

/-- Read one team back from a JSON value. -/
def decodeTeam : Json → Option Team
  | .obj [("id", .str i), ("name", .str n), ("accent", .str a)] => some ⟨i, n, a⟩
  | _ => none

/-- Read a team list back from a JSON array. -/
def decodeTeamList : List Json → Option (List Team)
  | [] => some []
  | j :: rest =>
    match decodeTeam j with
    | none => none
    | some t =>
      match decodeTeamList rest with
      | none => none
      | some ts => some (t :: ts)

/-- Read the teams slot back from a JSON value. -/
def decodeTeams : Json → Option (List Team)
  | .arr items => decodeTeamList items
  | _ => none

/-- Outcome of one useState initializer (src/App.tsx lines 83-104):
the cookie text is accepted verbatim when it parses, otherwise the seed is
used. -/
inductive LoadResult where
  | fromCookie (j : Json)
  | seeded

/-- The useState initializer composed with getCookie (src/App.tsx lines
71-104): an absent cookie reads as null and an empty value is also returned
as null by getCookie; a present non-empty text is JSON.parsed, a parse error
falls back to the seed.  decodeURIComponent of encodeURIComponent is the
identity, so the slot is modelled as holding the JSON text itself. -/
def loadSlot (slot : Option String) : LoadResult :=
  match slot with
  | none => .seeded
  | some saved =>
    if saved = "" then .seeded
    else
      match parseJsonText saved with
      | some j => .fromCookie j
      | none => .seeded

theorem mk_data (s : String) : String.mk s.data = s := rfl

theorem hexVal_hexDigit (n : Nat) (h : n < 16) : hexVal (hexDigit n) = some n := by
  interval_cases n <;> decide

theorem hexVal_zero : hexVal '0' = some 0 := by decide

theorem parseStringBody_escapeChar (c : Char) (rest : List Char)
    (res : List Char × List Char) (h : parseStringBody rest = some res) :
    parseStringBody (escapeChar c ++ rest) = some (c :: res.1, res.2) := by
  by_cases h1 : c = '"'
  · subst h1
    rw [show escapeChar '"' ++ rest = '\\' :: '"' :: rest by simp [escapeChar]]
    rw [parseStringBody.eq_def]
    simp +decide [escChar, h]
  · by_cases h2 : c = '\\'
    · subst h2
      rw [show escapeChar '\\' ++ rest = '\\' :: '\\' :: rest by simp +decide [escapeChar]]
      rw [parseStringBody.eq_def]
      simp +decide [escChar, h]
    · by_cases h3 : c.toNat < 32
      · have hhi : c.toNat / 16 < 16 := by omega
        have hlo : c.toNat % 16 < 16 := by omega
        rw [show escapeChar c ++ rest
            = '\\' :: 'u' :: '0' :: '0' :: hexDigit (c.toNat / 16)
                :: hexDigit (c.toNat % 16) :: rest by
          simp [escapeChar, if_neg h1, if_neg h2, if_pos h3]]
        rw [parseStringBody.eq_def]
        simp +decide [hexVal_zero, hexVal_hexDigit _ hhi, hexVal_hexDigit _ hlo, h]
        have harith : c.toNat / 16 * 16 + c.toNat % 16 = c.toNat := by omega
        rw [harith, Char.ofNat_toNat]
      · rw [show escapeChar c ++ rest = c :: rest by
          simp [escapeChar, if_neg h1, if_neg h2, if_neg h3]]
        rw [parseStringBody.eq_def]
        simp [h1, h2, h3, h]

theorem parseStringBody_stringEscape (cs : List Char) :
    ∀ rest : List Char, parseStringBody (stringEscape cs ++ '"' :: rest) = some (cs, rest) := by
  induction cs with
  | nil =>
    intro rest
    rw [show stringEscape [] ++ '"' :: rest = '"' :: rest by simp [stringEscape]]
    rw [parseStringBody.eq_def]
    simp
  | cons c cs ih =>
    intro rest
    have hstep : stringEscape (c :: cs) = escapeChar c ++ stringEscape cs := by
      simp [stringEscape]
    rw [hstep, List.append_assoc]
    exact parseStringBody_escapeChar c _ (cs, rest) (ih rest)

theorem skipWs_cons (c : Char) (cs : List Char) (h : isJsonWs c = false) :
    skipWs (c :: cs) = c :: cs := by
  simp [skipWs, h]

theorem parseValue_null (f : Nat) (rest : List Char) :
    parseValue (f + 1) (['n', 'u', 'l', 'l'] ++ rest) = some (Json.null, rest) := by
  rw [parseValue.eq_def]
  simp +decide [skipWs_cons, isJsonWs, expectLit]

theorem parseValue_str (f : Nat) (s : String) (rest : List Char) :
    parseValue (f + 1) (stringifyString s ++ rest) = some (Json.str s, rest) := by
  rw [show stringifyString s ++ rest = '"' :: (stringEscape s.data ++ '"' :: rest) by
    simp [stringifyString]]
  rw [parseValue.eq_def]
  simp +decide [skipWs, isJsonWs, parseStringBody_stringEscape, mk_data]

theorem parseObjItems_field_cons (fuel : Nat) (k : String) (v : Json)
    (tailtext rest : List Char) (flds : List (String × Json))
    (hv : parseValue fuel (stringifyJson v ++ ',' :: tailtext) = some (v, ',' :: tailtext))
    (hrest : parseObjItems fuel tailtext = some (flds, rest)) :
    parseObjItems (fuel + 1)
      (stringifyString k ++ ':' :: stringifyJson v ++ ',' :: tailtext)
      = some ((k, v) :: flds, rest) := by
  rw [show stringifyString k ++ ':' :: stringifyJson v ++ ',' :: tailtext
      = '"' :: (stringEscape k.data ++ '"' :: (':' :: (stringifyJson v ++ ',' :: tailtext))) by
    simp [stringifyString]]
  rw [parseObjItems.eq_def]
  simp +decide [skipWs, isJsonWs, parseStringBody_stringEscape, mk_data, hv, hrest]

theorem parseObjItems_field_last (fuel : Nat) (k : String) (v : Json)
    (rest : List Char)
    (hv : parseValue fuel (stringifyJson v ++ '\x7d' :: rest) = some (v, '\x7d' :: rest)) :
    parseObjItems (fuel + 1)
      (stringifyString k ++ ':' :: stringifyJson v ++ '\x7d' :: rest)
      = some ([(k, v)], rest) := by
  rw [show stringifyString k ++ ':' :: stringifyJson v ++ '\x7d' :: rest
      = '"' :: (stringEscape k.data ++ '"' :: (':' :: (stringifyJson v ++ '\x7d' :: rest))) by
    simp [stringifyString]]
  rw [parseObjItems.eq_def]
  simp +decide [skipWs, isJsonWs, parseStringBody_stringEscape, mk_data, hv]

theorem parseValue_succ_eq (fuel : Nat) (cs : List Char) :
    parseValue (fuel + 1) cs =
      (match skipWs cs with
      | [] => none
      | c :: rest =>
        if c = 'n' then (expectLit ['u', 'l', 'l'] rest).map (fun r => (Json.null, r))
        else if c = 't' then (expectLit ['r', 'u', 'e'] rest).map (fun r => (Json.bool true, r))
        else if c = 'f' then
          (expectLit ['a', 'l', 's', 'e'] rest).map (fun r => (Json.bool false, r))
        else if c = '"' then (parseStringBody rest).map (fun r => (Json.str ⟨r.1⟩, r.2))
        else if c = '[' then
          match skipWs rest with
          | [] => none
          | c2 :: rest2 =>
            if c2 = ']' then some (Json.arr [], rest2)
            else (parseArrItems fuel (c2 :: rest2)).map (fun r => (Json.arr r.1, r.2))
        else if c = '\x7b' then
          match skipWs rest with
          | [] => none
          | c2 :: rest2 =>
            if c2 = '\x7d' then some (Json.obj [], rest2)
            else (parseObjItems fuel (c2 :: rest2)).map (fun r => (Json.obj r.1, r.2))
        else parseNumber (c :: rest)) := rfl

theorem parseArrItems_succ_eq (fuel : Nat) (cs : List Char) :
    parseArrItems (fuel + 1) cs =
      (match parseValue fuel cs with
      | none => none
      | some r =>
        match skipWs r.2 with
        | [] => none
        | c2 :: rest2 =>
          if c2 = ',' then (parseArrItems fuel rest2).map (fun q => (r.1 :: q.1, q.2))
          else if c2 = ']' then some ([r.1], rest2)
          else none) := rfl

theorem parseObjItems_succ_eq (fuel : Nat) (cs : List Char) :
    parseObjItems (fuel + 1) cs =
      (match skipWs cs with
      | [] => none
      | c0 :: rest0 =>
        if c0 = '"' then
          match parseStringBody rest0 with
          | none => none
          | some rk =>
            match skipWs rk.2 with
            | [] => none
            | c1 :: rest1 =>
              if c1 = ':' then
                match parseValue fuel rest1 with
                | none => none
                | some rv =>
                  match skipWs rv.2 with
                  | [] => none
                  | c2 :: rest2 =>
                    if c2 = ',' then
                      (parseObjItems fuel rest2).map (fun q => ((⟨rk.1⟩, rv.1) :: q.1, q.2))
                    else if c2 = '\x7d' then some ([(⟨rk.1⟩, rv.1)], rest2)
                    else none
              else none
        else none) := rfl

theorem parse_mono (f : Nat) :
    (∀ cs r, parseValue f cs = some r → parseValue (f + 1) cs = some r)
    ∧ (∀ cs r, parseArrItems f cs = some r → parseArrItems (f + 1) cs = some r)
    ∧ (∀ cs r, parseObjItems f cs = some r → parseObjItems (f + 1) cs = some r) := by
  induction f with
  | zero =>
    refine ⟨?_, ?_, ?_⟩ <;> intro cs r h <;>
      simp [parseValue, parseArrItems, parseObjItems] at h
  | succ f ih =>
    obtain ⟨ihv, iha, iho⟩ := ih
    refine ⟨?_, ?_, ?_⟩
    · intro cs r h
      rw [parseValue_succ_eq] at h ⊢
      cases hsk : skipWs cs with
      | nil => rw [hsk] at h; exact absurd h (by simp)
      | cons c rest =>
        rw [hsk] at h
        dsimp only at h ⊢
        by_cases hn : c = 'n'
        · simpa [hn] using h
        · by_cases htt : c = 't'
          · simpa [hn, htt] using h
          · by_cases hf : c = 'f'
            · simpa [hn, htt, hf] using h
            · by_cases hq : c = '"'
              · simpa [hn, htt, hf, hq] using h
              · by_cases harr : c = '['
                · simp +decide only [hn, htt, hf, hq, harr, if_true, if_false, ite_true,
                    ite_false, reduceIte] at h ⊢
                  cases hsk2 : skipWs rest with
                  | nil => rw [hsk2] at h; exact absurd h (by simp)
                  | cons c2 rest2 =>
                    rw [hsk2] at h
                    dsimp only at h ⊢
                    by_cases hc2 : c2 = ']'
                    · simpa [hc2] using h
                    · simp +decide only [hc2, if_false, ite_false, reduceIte] at h ⊢
                      rw [Option.map_eq_some'] at h ⊢
                      obtain ⟨q, hq2, hr⟩ := h
                      exact ⟨q, iha _ _ hq2, hr⟩
                · by_cases hob : c = '\x7b'
                  · simp +decide only [hn, htt, hf, hq, harr, hob, if_true, if_false, ite_true,
                      ite_false, reduceIte] at h ⊢
                    cases hsk2 : skipWs rest with
                    | nil => rw [hsk2] at h; exact absurd h (by simp)
                    | cons c2 rest2 =>
                      rw [hsk2] at h
                      dsimp only at h ⊢
                      by_cases hc2 : c2 = '\x7d'
                      · simpa [hc2] using h
                      · simp +decide only [hc2, if_false, ite_false, reduceIte] at h ⊢
                        rw [Option.map_eq_some'] at h ⊢
                        obtain ⟨q, hq2, hr⟩ := h
                        exact ⟨q, iho _ _ hq2, hr⟩
                  · simpa [hn, htt, hf, hq, harr, hob] using h
    · intro cs r h
      rw [parseArrItems_succ_eq] at h ⊢
      cases hv : parseValue f cs with
      | none => rw [hv] at h; exact absurd h (by simp)
      | some rv =>
        rw [hv] at h
        rw [ihv _ _ hv]
        dsimp only at h ⊢
        cases hsk : skipWs rv.2 with
        | nil => rw [hsk] at h; exact absurd h (by simp)
        | cons c2 rest2 =>
          rw [hsk] at h
          dsimp only at h ⊢
          by_cases hc2 : c2 = ','
          · simp +decide only [hc2, if_true, ite_true, reduceIte] at h ⊢
            rw [Option.map_eq_some'] at h ⊢
            obtain ⟨q, hq2, hr⟩ := h
            exact ⟨q, iha _ _ hq2, hr⟩
          · simpa [hc2] using h
    · intro cs r h
      rw [parseObjItems_succ_eq] at h ⊢
      cases hsk : skipWs cs with
      | nil => rw [hsk] at h; exact absurd h (by simp)
      | cons c0 rest0 =>
        rw [hsk] at h
        dsimp only at h ⊢
        by_cases hc0 : c0 = '"'
        · simp +decide only [hc0, if_true, ite_true, reduceIte] at h ⊢
          cases hsb : parseStringBody rest0 with
          | none => rw [hsb] at h; exact absurd h (by simp)
          | some rk =>
            rw [hsb] at h
            dsimp only at h ⊢
            cases hsk1 : skipWs rk.2 with
            | nil => rw [hsk1] at h; exact absurd h (by simp)
            | cons c1 rest1 =>
              rw [hsk1] at h
              dsimp only at h ⊢
              by_cases hc1 : c1 = ':'
              · simp +decide only [hc1, if_true, ite_true, reduceIte] at h ⊢
                cases hv : parseValue f rest1 with
                | none => rw [hv] at h; exact absurd h (by simp)
                | some rv =>
                  rw [hv] at h
                  rw [ihv _ _ hv]
                  dsimp only at h ⊢
                  cases hsk2 : skipWs rv.2 with
                  | nil => rw [hsk2] at h; exact absurd h (by simp)
                  | cons c2 rest2 =>
                    rw [hsk2] at h
                    dsimp only at h ⊢
                    by_cases hc2 : c2 = ','
                    · simp +decide only [hc2, if_true, ite_true, reduceIte] at h ⊢
                      rw [Option.map_eq_some'] at h ⊢
                      obtain ⟨q, hq2, hr⟩ := h
                      exact ⟨q, iho _ _ hq2, hr⟩
                    · simpa [hc2] using h
              · simpa [hc1] using h
        · simpa [hc0] using h

theorem parseValue_mono_le (f f' : Nat) (hle : f ≤ f') (cs : List Char)
    (r : Json × List Char) (h : parseValue f cs = some r) : parseValue f' cs = some r := by
  induction f' with
  | zero =>
    rw [Nat.le_zero.mp hle] at h
    exact h
  | succ f' ih =>
    rcases Nat.lt_or_ge f (f' + 1) with hlt | hge
    · exact (parse_mono f').1 cs r (ih (Nat.lt_succ_iff.mp hlt))
    · rw [Nat.le_antisymm hle hge] at h
      exact h

theorem sJ_str (s : String) : stringifyJson (Json.str s) = stringifyString s := by
  simp [stringifyJson]

theorem sJ_null : stringifyJson Json.null = ['n', 'u', 'l', 'l'] := by
  simp [stringifyJson]

theorem parseValue_strJson (f : Nat) (s : String) (rest : List Char) :
    parseValue (f + 1) (stringifyJson (Json.str s) ++ rest) = some (Json.str s, rest) := by
  rw [sJ_str]
  exact parseValue_str f s rest

theorem stringifyFields_head (k0 : String) (v0 : Json) (tail : List (String × Json))
    (suffix : List Char) :
    ∃ Z, stringifyFields ((k0, v0) :: tail) ++ suffix = '"' :: Z := by
  cases tail with
  | nil =>
    refine ⟨stringEscape k0.data ++ '"' :: (':' :: (stringifyJson v0 ++ suffix)), ?_⟩
    simp [stringifyFields, stringifyString]
  | cons t2 ts =>
    refine ⟨stringEscape k0.data ++ '"' :: (':' :: (stringifyJson v0
      ++ ',' :: (stringifyFields (t2 :: ts) ++ suffix))), ?_⟩
    simp [stringifyFields, stringifyString]

theorem parseObjItems_fields :
    ∀ (tail : List (String × Json)) (k0 : String) (v0 : Json) (rest : List Char),
      (∀ kv ∈ (k0, v0) :: tail, ∀ (g : Nat) (rest2 : List Char),
        parseValue (g + 1) (stringifyJson (kv.2 : Json) ++ rest2) = some (kv.2, rest2)) →
      parseObjItems (tail.length + 2) (stringifyFields ((k0, v0) :: tail) ++ '\x7d' :: rest)
        = some ((k0, v0) :: tail, rest) := by
  intro tail
  induction tail with
  | nil =>
    intro k0 v0 rest hv
    rw [show stringifyFields [(k0, v0)] ++ '\x7d' :: rest
        = stringifyString k0 ++ ':' :: stringifyJson v0 ++ '\x7d' :: rest by
      simp [stringifyFields]]
    exact parseObjItems_field_last 1 k0 v0 rest
      (hv (k0, v0) (List.mem_cons_self _ _) 0 _)
  | cons kv2 ts ih =>
    intro k0 v0 rest hv
    rw [show stringifyFields ((k0, v0) :: kv2 :: ts) ++ '\x7d' :: rest
        = stringifyString k0 ++ ':' :: stringifyJson v0
          ++ ',' :: (stringifyFields (kv2 :: ts) ++ '\x7d' :: rest) by
      simp [stringifyFields]]
    have hval0 := hv (k0, v0) (List.mem_cons_self _ _) (ts.length + 1)
      (',' :: (stringifyFields (kv2 :: ts) ++ '\x7d' :: rest))
    have hval : parseValue (ts.length + 2)
        (stringifyJson v0 ++ ',' :: (stringifyFields (kv2 :: ts) ++ '\x7d' :: rest))
        = some (v0, ',' :: (stringifyFields (kv2 :: ts) ++ '\x7d' :: rest)) := by
      simpa using hval0
    have htail : parseObjItems (ts.length + 2)
        (stringifyFields ((kv2.1, kv2.2) :: ts) ++ '\x7d' :: rest)
        = some ((kv2.1, kv2.2) :: ts, rest) := by
      apply ih
      intro kv hkv g rest2
      exact hv kv (List.mem_cons_of_mem _ (by simpa using hkv)) g rest2
    have htail2 : parseObjItems (ts.length + 2) (stringifyFields (kv2 :: ts) ++ '\x7d' :: rest)
        = some (kv2 :: ts, rest) := by
      simpa using htail
    exact parseObjItems_field_cons (ts.length + 2) k0 v0 _ rest _ hval htail2

theorem parseValue_obj (fuel : Nat) (k0 : String) (v0 : Json) (tail : List (String × Json))
    (rest : List Char)
    (hitems : parseObjItems (fuel + 1)
      (stringifyFields ((k0, v0) :: tail) ++ '\x7d' :: rest) = some ((k0, v0) :: tail, rest)) :
    parseValue (fuel + 2) (stringifyJson (Json.obj ((k0, v0) :: tail)) ++ rest)
      = some (Json.obj ((k0, v0) :: tail), rest) := by
  obtain ⟨Z, hZ⟩ := stringifyFields_head k0 v0 tail ('\x7d' :: rest)
  rw [show stringifyJson (Json.obj ((k0, v0) :: tail)) ++ rest
      = '\x7b' :: (stringifyFields ((k0, v0) :: tail) ++ '\x7d' :: rest) by
    simp [stringifyJson]]
  rw [show parseValue (fuel + 2) = parseValue ((fuel + 1) + 1) by norm_num]
  rw [parseValue_succ_eq]
  rw [skipWs_cons _ _ (by decide)]
  dsimp only
  simp +decide only []
  rw [hZ]
  rw [skipWs_cons _ _ (by decide)]
  dsimp only
  simp +decide only []
  rw [← hZ, hitems]
  rfl

theorem parseValue_player (p : Player) (rest : List Char) :
    parseValue 6 (stringifyJson (playerJson p) ++ rest) = some (playerJson p, rest) := by
  have hgood : ∀ (g : Nat) (rest2 : List Char),
      parseValue (g + 1) (stringifyJson
          (match p.teamId with | none => Json.null | some t => Json.str t) ++ rest2)
        = some ((match p.teamId with | none => Json.null | some t => Json.str t), rest2) := by
    rcases p.teamId with _ | t
    · intro g rest2
      rw [show (match (none : Option String) with
          | none => Json.null | some t => Json.str t) = Json.null from rfl]
      rw [sJ_null]
      exact parseValue_null g rest2
    · intro g rest2
      exact parseValue_strJson g t rest2
  rw [show playerJson p = Json.obj (("id", Json.str p.id) ::
      [("name", Json.str p.name), ("color", Json.str p.color),
       ("teamId", match p.teamId with | none => Json.null | some t => Json.str t)]) from rfl]
  apply parseValue_obj 4
  have hv : ∀ kv ∈ (("id", Json.str p.id) ::
      [("name", Json.str p.name), ("color", Json.str p.color),
       ("teamId", match p.teamId with | none => Json.null | some t => Json.str t)]),
      ∀ (g : Nat) (rest2 : List Char),
        parseValue (g + 1) (stringifyJson (kv.2 : Json) ++ rest2) = some (kv.2, rest2) := by
    intro kv hkv g rest2
    simp only [List.mem_cons, List.not_mem_nil, or_false] at hkv
    rcases hkv with rfl | rfl | rfl | rfl
    · exact parseValue_strJson g p.id rest2
    · exact parseValue_strJson g p.name rest2
    · exact parseValue_strJson g p.color rest2
    · exact hgood g rest2
  have hb := parseObjItems_fields _ _ _ rest hv
  simpa using hb

theorem parseValue_team (t : Team) (rest : List Char) :
    parseValue 5 (stringifyJson (teamJson t) ++ rest) = some (teamJson t, rest) := by
  rw [show teamJson t = Json.obj (("id", Json.str t.id) ::
      [("name", Json.str t.name), ("accent", Json.str t.accent)]) from rfl]
  apply parseValue_obj 3
  have hv : ∀ kv ∈ (("id", Json.str t.id) ::
      [("name", Json.str t.name), ("accent", Json.str t.accent)]),
      ∀ (g : Nat) (rest2 : List Char),
        parseValue (g + 1) (stringifyJson (kv.2 : Json) ++ rest2) = some (kv.2, rest2) := by
    intro kv hkv g rest2
    simp only [List.mem_cons, List.not_mem_nil, or_false] at hkv
    rcases hkv with rfl | rfl | rfl
    · exact parseValue_strJson g t.id rest2
    · exact parseValue_strJson g t.name rest2
    · exact parseValue_strJson g t.accent rest2
  have hb := parseObjItems_fields _ _ _ rest hv
  simpa using hb

theorem parseArrItems_players : ∀ (ps : List Player) (p : Player) (rest : List Char),
    parseArrItems (ps.length + 7) (stringifyItems ((p :: ps).map playerJson) ++ ']' :: rest)
      = some ((p :: ps).map playerJson, rest) := by
  intro ps
  induction ps with
  | nil =>
    intro p rest
    rw [show stringifyItems (([p] : List Player).map playerJson) ++ ']' :: rest
        = stringifyJson (playerJson p) ++ ']' :: rest by simp [stringifyItems]]
    simp only [List.length_nil]
    rw [show (0 : Nat) + 7 = 6 + 1 from rfl]
    rw [parseArrItems_succ_eq]
    rw [parseValue_mono_le 6 6 (by omega) _ _ (parseValue_player p (']' :: rest))]
    dsimp only
    rw [skipWs_cons _ _ (by decide)]
    simp +decide
  | cons q qs ih =>
    intro p rest
    rw [show stringifyItems ((p :: q :: qs).map playerJson) ++ ']' :: rest
        = stringifyJson (playerJson p)
          ++ ',' :: (stringifyItems ((q :: qs).map playerJson) ++ ']' :: rest) by
      simp [stringifyItems]]
    simp only [List.length_cons]
    rw [show qs.length + 1 + 7 = (qs.length + 7) + 1 by omega]
    rw [parseArrItems_succ_eq]
    rw [parseValue_mono_le 6 (qs.length + 7) (by omega) _ _ (parseValue_player p _)]
    dsimp only
    rw [skipWs_cons _ _ (by decide)]
    simp +decide only []
    have ih2 := ih q rest
    simp only [List.length_cons] at ih2
    rw [ih2]
    simp

theorem parseValue_playersArr : ∀ (ps : List Player) (rest : List Char),
    parseValue (ps.length + 7) (stringifyJson (playersJson ps) ++ rest)
      = some (playersJson ps, rest) := by
  intro ps rest
  cases ps with
  | nil =>
    rw [show stringifyJson (playersJson []) ++ rest = '[' :: (']' :: rest) by
      simp [playersJson, stringifyJson, stringifyItems]]
    simp only [List.length_nil]
    rw [show (0 : Nat) + 7 = 6 + 1 from rfl]
    rw [parseValue_succ_eq]
    rw [skipWs_cons _ _ (by decide)]
    dsimp only
    simp +decide only []
    rw [skipWs_cons _ _ (by decide)]
    simp +decide [playersJson]
  | cons p ps2 =>
    have hhead : ∃ X, stringifyItems ((p :: ps2).map playerJson) = '\x7b' :: X := by
      cases ps2 with
      | nil =>
        refine ⟨stringifyFields (("id", Json.str p.id) ::
          [("name", Json.str p.name), ("color", Json.str p.color),
           ("teamId", match p.teamId with | none => Json.null | some t => Json.str t)])
            ++ ['\x7d'], ?_⟩
        simp [stringifyItems, playerJson, stringifyJson]
      | cons q qs =>
        refine ⟨(stringifyFields (("id", Json.str p.id) ::
          [("name", Json.str p.name), ("color", Json.str p.color),
           ("teamId", match p.teamId with | none => Json.null | some t => Json.str t)])
            ++ ['\x7d']) ++ ',' :: stringifyItems ((q :: qs).map playerJson), ?_⟩
        simp [stringifyItems, playerJson, stringifyJson]
    obtain ⟨X, hX⟩ := hhead
    rw [show stringifyJson (playersJson (p :: ps2)) ++ rest
        = '[' :: (stringifyItems ((p :: ps2).map playerJson) ++ ']' :: rest) by
      simp [playersJson, stringifyJson]]
    simp only [List.length_cons]
    rw [show ps2.length + 1 + 7 = (ps2.length + 7) + 1 by omega]
    rw [parseValue_succ_eq]
    rw [skipWs_cons _ _ (by decide)]
    dsimp only
    simp +decide only []
    rw [hX, List.cons_append]
    rw [skipWs_cons _ _ (by decide)]
    simp +decide only []
    rw [← List.cons_append, ← hX]
    have harr := parseArrItems_players ps2 p rest
    rw [harr]
    simp [playersJson]

theorem parseArrItems_teams : ∀ (ts : List Team) (t : Team) (rest : List Char),
    parseArrItems (ts.length + 6) (stringifyItems ((t :: ts).map teamJson) ++ ']' :: rest)
      = some ((t :: ts).map teamJson, rest) := by
  intro ts
  induction ts with
  | nil =>
    intro t rest
    rw [show stringifyItems (([t] : List Team).map teamJson) ++ ']' :: rest
        = stringifyJson (teamJson t) ++ ']' :: rest by simp [stringifyItems]]
    simp only [List.length_nil]
    rw [show (0 : Nat) + 6 = 5 + 1 from rfl]
    rw [parseArrItems_succ_eq]
    rw [parseValue_mono_le 5 5 (by omega) _ _ (parseValue_team t (']' :: rest))]
    dsimp only
    rw [skipWs_cons _ _ (by decide)]
    simp +decide
  | cons q qs ih =>
    intro t rest
    rw [show stringifyItems ((t :: q :: qs).map teamJson) ++ ']' :: rest
        = stringifyJson (teamJson t)
          ++ ',' :: (stringifyItems ((q :: qs).map teamJson) ++ ']' :: rest) by
      simp [stringifyItems]]
    simp only [List.length_cons]
    rw [show qs.length + 1 + 6 = (qs.length + 6) + 1 by omega]
    rw [parseArrItems_succ_eq]
    rw [parseValue_mono_le 5 (qs.length + 6) (by omega) _ _ (parseValue_team t _)]
    dsimp only
    rw [skipWs_cons _ _ (by decide)]
    simp +decide only []
    have ih2 := ih q rest
    simp only [List.length_cons] at ih2
    rw [ih2]
    simp

theorem parseValue_teamsArr : ∀ (ts : List Team) (rest : List Char),
    parseValue (ts.length + 6) (stringifyJson (teamsJson ts) ++ rest)
      = some (teamsJson ts, rest) := by
  intro ts rest
  cases ts with
  | nil =>
    rw [show stringifyJson (teamsJson []) ++ rest = '[' :: (']' :: rest) by
      simp [teamsJson, stringifyJson, stringifyItems]]
    simp only [List.length_nil]
    rw [show (0 : Nat) + 6 = 5 + 1 from rfl]
    rw [parseValue_succ_eq]
    rw [skipWs_cons _ _ (by decide)]
    dsimp only
    simp +decide only []
    rw [skipWs_cons _ _ (by decide)]
    simp +decide [teamsJson]
  | cons t ts2 =>
    have hhead : ∃ X, stringifyItems ((t :: ts2).map teamJson) = '\x7b' :: X := by
      cases ts2 with
      | nil =>
        refine ⟨stringifyFields (("id", Json.str t.id) ::
          [("name", Json.str t.name), ("accent", Json.str t.accent)]) ++ ['\x7d'], ?_⟩
        simp [stringifyItems, teamJson, stringifyJson]
      | cons q qs =>
        refine ⟨(stringifyFields (("id", Json.str t.id) ::
          [("name", Json.str t.name), ("accent", Json.str t.accent)]) ++ ['\x7d'])
            ++ ',' :: stringifyItems ((q :: qs).map teamJson), ?_⟩
        simp [stringifyItems, teamJson, stringifyJson]
    obtain ⟨X, hX⟩ := hhead
    rw [show stringifyJson (teamsJson (t :: ts2)) ++ rest
        = '[' :: (stringifyItems ((t :: ts2).map teamJson) ++ ']' :: rest) by
      simp [teamsJson, stringifyJson]]
    simp only [List.length_cons]
    rw [show ts2.length + 1 + 6 = (ts2.length + 6) + 1 by omega]
    rw [parseValue_succ_eq]
    rw [skipWs_cons _ _ (by decide)]
    dsimp only
    simp +decide only []
    rw [hX, List.cons_append]
    rw [skipWs_cons _ _ (by decide)]
    simp +decide only []
    rw [← List.cons_append, ← hX]
    have harr := parseArrItems_teams ts2 t rest
    rw [harr]
    simp [teamsJson]

theorem length_player_item (p : Player) : 7 ≤ (stringifyJson (playerJson p)).length := by
  rcases hp : p.teamId with _ | t <;>
    simp [playerJson, hp, stringifyJson, stringifyFields, stringifyString,
      List.length_append] <;>
    omega

theorem length_team_item (t : Team) : 7 ≤ (stringifyJson (teamJson t)).length := by
  simp [teamJson, stringifyJson, stringifyFields, stringifyString, List.length_append]
  omega

theorem length_items_players : ∀ (ps : List Player) (p : Player),
    ps.length + 6 ≤ (stringifyItems ((p :: ps).map playerJson)).length := by
  intro ps
  induction ps with
  | nil =>
    intro p
    have := length_player_item p
    simpa [stringifyItems] using by omega
  | cons q qs ih =>
    intro p
    have h1 := length_player_item p
    have h2 := ih q
    rw [show stringifyItems ((p :: q :: qs).map playerJson)
        = stringifyJson (playerJson p) ++ ',' :: stringifyItems ((q :: qs).map playerJson) by
      simp [stringifyItems]]
    simp only [List.length_append, List.length_cons] at h2 ⊢
    omega

theorem length_items_teams : ∀ (ts : List Team) (t : Team),
    ts.length + 6 ≤ (stringifyItems ((t :: ts).map teamJson)).length := by
  intro ts
  induction ts with
  | nil =>
    intro t
    have := length_team_item t
    simpa [stringifyItems] using by omega
  | cons q qs ih =>
    intro t
    have h1 := length_team_item t
    have h2 := ih q
    rw [show stringifyItems ((t :: q :: qs).map teamJson)
        = stringifyJson (teamJson t) ++ ',' :: stringifyItems ((q :: qs).map teamJson) by
      simp [stringifyItems]]
    simp only [List.length_append, List.length_cons] at h2 ⊢
    omega

theorem roundtrip_players (ps : List Player) :
    parseJsonText (stringifyText (playersJson ps)) = some (playersJson ps) := by
  cases ps with
  | nil =>
    rw [show stringifyText (playersJson []) = "[]" by
      simp [stringifyText, playersJson, stringifyJson, stringifyItems]]
    rfl
  | cons p ps2 =>
    have hitem := length_items_players ps2 p
    have hlen : (p :: ps2).length + 6 ≤ (stringifyJson (playersJson (p :: ps2))).length := by
      rw [show stringifyJson (playersJson (p :: ps2))
          = '[' :: (stringifyItems ((p :: ps2).map playerJson) ++ [']']) by
        simp [playersJson, stringifyJson]]
      simp only [List.length_cons, List.length_append, List.length_singleton]
      omega
    have hbase := parseValue_playersArr (p :: ps2) []
    rw [List.append_nil] at hbase
    have hp := parseValue_mono_le ((p :: ps2).length + 7)
      ((stringifyJson (playersJson (p :: ps2))).length + 1)
      (by simp only [List.length_cons] at hlen ⊢; omega) _ _ hbase
    simp [parseJsonText, stringifyText, hp, skipWs]

theorem roundtrip_teams (ts : List Team) :
    parseJsonText (stringifyText (teamsJson ts)) = some (teamsJson ts) := by
  cases ts with
  | nil =>
    rw [show stringifyText (teamsJson []) = "[]" by
      simp [stringifyText, teamsJson, stringifyJson, stringifyItems]]
    rfl
  | cons t ts2 =>
    have hitem := length_items_teams ts2 t
    have hlen : (t :: ts2).length + 5 ≤ (stringifyJson (teamsJson (t :: ts2))).length := by
      rw [show stringifyJson (teamsJson (t :: ts2))
          = '[' :: (stringifyItems ((t :: ts2).map teamJson) ++ [']']) by
        simp [teamsJson, stringifyJson]]
      simp only [List.length_cons, List.length_append, List.length_singleton]
      omega
    have hbase := parseValue_teamsArr (t :: ts2) []
    rw [List.append_nil] at hbase
    have hp := parseValue_mono_le ((t :: ts2).length + 6)
      ((stringifyJson (teamsJson (t :: ts2))).length + 1)
      (by simp only [List.length_cons] at hlen ⊢; omega) _ _ hbase
    simp [parseJsonText, stringifyText, hp, skipWs]

theorem decodePlayer_playerJson (p : Player) : decodePlayer (playerJson p) = some p := by
  obtain ⟨i, n, c, tid⟩ := p
  rcases tid with _ | t <;> simp [playerJson, decodePlayer]

theorem decodePlayers_playersJson (ps : List Player) :
    decodePlayers (playersJson ps) = some ps := by
  have h : decodePlayerList (ps.map playerJson) = some ps := by
    induction ps with
    | nil => rfl
    | cons p ps ih => simp [decodePlayerList, decodePlayer_playerJson, ih]
  simp [decodePlayers, playersJson, h]

theorem decodeTeam_teamJson (t : Team) : decodeTeam (teamJson t) = some t := by
  obtain ⟨i, n, a⟩ := t
  simp [teamJson, decodeTeam]

theorem decodeTeams_teamsJson (ts : List Team) : decodeTeams (teamsJson ts) = some ts := by
  have h : decodeTeamList (ts.map teamJson) = some ts := by
    induction ts with
    | nil => rfl
    | cons t ts ih => simp [decodeTeamList, decodeTeam_teamJson, ih]
  simp [decodeTeams, teamsJson, h]

/-- C4: serializing any player collection (and any team collection) and
parsing the result reproduces a JSON snapshot denoting exactly the same
collection; and on load an absent slot, an empty slot, or unparseable text
falls back to the fixed seed: thirteen players with no team and two teams. -/
theorem persistence_roundtrip :
    (∀ ps : List Player,
      parseJsonText (stringifyText (playersJson ps)) = some (playersJson ps)
      ∧ decodePlayers (playersJson ps) = some ps)
    ∧ (∀ ts : List Team,
      parseJsonText (stringifyText (teamsJson ts)) = some (teamsJson ts)
      ∧ decodeTeams (teamsJson ts) = some ts)
    ∧ loadSlot none = LoadResult.seeded
    ∧ loadSlot (some "") = LoadResult.seeded
    ∧ (∀ s : String, s ≠ "" → parseJsonText s = none → loadSlot (some s) = LoadResult.seeded)
    ∧ seededPlayers.length = 13
    ∧ (∀ p ∈ seededPlayers, p.teamId = none)
    ∧ initialTeams.length = 2 := by
  refine ⟨fun ps => ⟨roundtrip_players ps, decodePlayers_playersJson ps⟩,
    fun ts => ⟨roundtrip_teams ts, decodeTeams_teamsJson ts⟩, rfl, rfl, ?_,
    by decide, by decide, by decide⟩
  intro s hs hp
  simp [loadSlot, hs, hp]

/-- Witness for C4: a concrete one-player round trip and the fallback on a
concrete unparseable cookie text. -/
theorem persistence_roundtrip_witness :
    parseJsonText (stringifyText (playersJson [⟨"a", "B", "#fff", none⟩]))
      = some (playersJson [⟨"a", "B", "#fff", none⟩])
    ∧ decodePlayers (playersJson [⟨"a", "B", "#fff", none⟩]) = some [⟨"a", "B", "#fff", none⟩]
    ∧ ("not json" : String) ≠ ""
    ∧ parseJsonText "not json" = none
    ∧ loadSlot (some "not json") = LoadResult.seeded :=
  ⟨(persistence_roundtrip.1 [⟨"a", "B", "#fff", none⟩]).1,
   (persistence_roundtrip.1 [⟨"a", "B", "#fff", none⟩]).2,
   by decide, rfl,
   persistence_roundtrip.2.2.2.2.1 "not json" (by decide) rfl⟩

/-- C10: load performs no shape validation: any text that parses is accepted
verbatim as the initial collection, even when the value is not a player
array at all (a bare number, or an array of numbers), so the data model can
be violated; the seed fallback is taken exactly when the slot is absent or
empty or the text fails to parse. -/
theorem load_accepts_any_parse :
    loadSlot (some "5") = LoadResult.fromCookie (Json.num 5)
    ∧ decodePlayers (Json.num 5) = none
    ∧ loadSlot (some "[4]") = LoadResult.fromCookie (Json.arr [Json.num 4])
    ∧ decodePlayers (Json.arr [Json.num 4]) = none
    ∧ (∀ s : String, loadSlot (some s) = LoadResult.seeded
        ↔ (s = "" ∨ parseJsonText s = none)) := by
  refine ⟨rfl, rfl, rfl, rfl, ?_⟩
  intro s
  by_cases hs : s = ""
  · simp [loadSlot, hs]
  · cases hp : parseJsonText s
    · simp [loadSlot, hs, hp]
    · simp [loadSlot, hs, hp]

/-- Witness for C10: the fallback condition instantiated at a concrete
unparseable text. -/
theorem load_accepts_any_parse_witness :
    loadSlot (some "not json") = LoadResult.seeded
      ↔ (("not json" : String) = "" ∨ parseJsonText "not json" = none) :=
  load_accepts_any_parse.2.2.2.2 "not json"

end TeamMakerV2
